import Mathlib

/-!
Verification development for the network/session core of the yuri game
server.  The definitions below are a shallow embedding of the C sources:
`src/c_src/net_crypt.c`, `src/c_src/net_crypt.h`, `src/c_src/session.h` and
`src/c_src/core.c`.  Machine integers are modelled as `Nat` with explicit
reductions modulo `2 ^ w` where C overflow or truncation matters; byte
buffers are `List Nat`; fallible operations return `Option`.
-/

namespace Yuri

/- ───────────────────────── cipher framing (net_crypt.h / net_crypt.c) ── -/

/-- The `SWAP16` macro, net_crypt.h line 5: `(short)(((x) << 8) | ((x) >> 8))`.
The operand (an `unsigned short` read from the buffer) is promoted to `int`;
the final cast to `short` keeps the low 16 bits of the result.  `swap16`
returns that 16-bit pattern as a natural number. -/
def swap16 (x : Nat) : Nat := ((x <<< 8) ||| (x >>> 8)) % 65536

/-- Reinterpretation of a 16-bit pattern as a C `short` widened to `int`:
the `(int)SWAP16(...)` step in net_crypt.c line 40 sign-extends the
16-bit value. -/
def int16 (x : Nat) : Int :=
  if x % 65536 < 32768 then (x % 65536 : Int) else (x % 65536 : Int) - 65536

/-- `*(unsigned short *)(buf + i)` on the little-endian host the code targets:
the 16-bit field formed by bytes `i` and `i + 1`. -/
def readU16 (buf : List Nat) (i : Nat) : Nat :=
  buf.getD i 0 + 256 * buf.getD (i + 1) 0

/-- The length decode used by `encrypt` (net_crypt.c line 40): `SWAP16`
applied to the 16-bit field at bytes 1-2, as the 16-bit pattern of the
`(short)` result. -/
def decodeLen (buf : List Nat) : Nat := swap16 (readU16 buf 1)

/-- The opcode of a framed packet: header byte 3 (net_crypt.c lines 33, 49). -/
def decodeOpcode (buf : List Nat) : Nat := buf.getD 3 0

/-- net_crypt.c line 40: `(int)SWAP16(*(unsigned short *)(buf + 1)) + 3`,
the value `encrypt` returns for a committed packet. -/
def pktLen (buf : List Nat) : Int := int16 (swap16 (readU16 buf 1)) + 3

/-- The per-connection identity blob (`USER`): the cipher code reads only its
`EncHash` identity hash table (net_crypt.c lines 35, 51). -/
structure USER where
  EncHash : List Nat
deriving DecidableEq

/-- The slice of `struct socket_data` (session.h lines 16-32) that `encrypt`
touches: the attached identity blob (`session_data`, fetched through
`rust_session_get_data`), the outbound packet region (`wdata + wdata_size`,
which `WFIFOP(fd, 0)` yields; `none` models a null `wdata` pointer), and the
per-connection increment counter. -/
structure EncSession where
  session_data : Option USER
  wdata : Option (List Nat)
  increment : Nat
deriving DecidableEq

/-- The slice of `struct socket_data` that `decrypt` touches: the identity
blob and the inbound buffer with its read cursor (`RFIFOP(fd, 0)` is
`rdata + rdata_pos`). -/
structure DecSession where
  session_data : Option USER
  rdata : List Nat
  rdata_pos : Nat
deriving DecidableEq

/-- `encrypt` (net_crypt.c lines 15-42).  The crypto primitives
(`set_packet_indexes`, `is_key_server`, `generate_key2`, `tk_crypt_dynamic`,
`tk_crypt_static`) live outside this tree (src/network/crypt.rs) and are
taken as parameters; `encrypt` is their C caller.  The pair returned is the
C `int` result together with the session as left by the in-place buffer
mutation; the early `return 1` paths leave the session untouched. -/
def encrypt (set_packet_indexes : List Nat → List Nat)
    (is_key_server : Nat → Bool)
    (generate_key2 : List Nat → List Nat → Nat → List Nat)
    (tk_crypt_dynamic : List Nat → List Nat → List Nat)
    (tk_crypt_static : List Nat → List Nat)
    (ss : EncSession) : Int × EncSession :=
  match ss.session_data with
  | none => (1, ss)
  | some sd =>
    match ss.wdata with
    | none => (1, ss)
    | some buf0 =>
      let buf1 := set_packet_indexes buf0
      let buf2 :=
        if is_key_server (buf1.getD 3 0) then
          tk_crypt_dynamic buf1 (generate_key2 buf1 sd.EncHash 0)
        else
          tk_crypt_static buf1
      (pktLen buf2, { ss with wdata := some buf2 })

/-- `decrypt` (net_crypt.c lines 44-57).  `RFIFOP(fd, 0)` is
`rdata + rdata_pos`; the selected transform is applied in place through that
pointer, so the bytes before `rdata_pos` are untouched.  `RFIFOB(fd, 3)` is
the byte at offset 3 of that packet view. -/
def decrypt (is_key_client : Nat → Bool)
    (generate_key2 : List Nat → List Nat → Nat → List Nat)
    (tk_crypt_dynamic : List Nat → List Nat → List Nat)
    (tk_crypt_static : List Nat → List Nat)
    (ss : DecSession) : Int × DecSession :=
  match ss.session_data with
  | none => (1, ss)
  | some sd =>
    let pkt := ss.rdata.drop ss.rdata_pos
    let pkt2 :=
      if is_key_client (pkt.getD 3 0) then
        tk_crypt_dynamic pkt (generate_key2 pkt sd.EncHash 1)
      else
        tk_crypt_static pkt
    (0, { ss with rdata := ss.rdata.take ss.rdata_pos ++ pkt2 })

/- ───────────────────────── inbound FIFO macros (session.h) ── -/

/-- C `size_t` subtraction: unsigned 64-bit arithmetic, wrapping modulo
`2 ^ 64`. -/
def sizeTSub (a b : Nat) : Nat := (a + 2 ^ 64 - b % 2 ^ 64) % 2 ^ 64

/-- The inbound half of `struct socket_data` (session.h lines 16-32):
`rdata` is the buffer (its length is the allocated capacity `max_rdata`),
`rdata_size` the write cursor, `rdata_pos` the read cursor. -/
structure RBuf where
  rdata : List Nat
  rdata_size : Nat
  rdata_pos : Nat
deriving DecidableEq

/-- `RFIFOSKIP` (session.h lines 48-52):
`(rdata_size - rdata_pos - len < 0) ? (printf(...), exit(1)) : rdata_pos += len`.
All three operands are `size_t`, so the subtraction wraps and the comparison
is unsigned; `none` models the `exit(1)` branch.  The cursor update is
`size_t` arithmetic as well. -/
def RFIFOSKIP (st : RBuf) (len : Nat) : Option RBuf :=
  if sizeTSub (sizeTSub st.rdata_size st.rdata_pos) len < 0 then none
  else some { st with rdata_pos := (st.rdata_pos + len) % 2 ^ 64 }

/-- `RFIFOFLUSH` (session.h lines 54-64): on full drain
(`rdata_size == rdata_pos`) both cursors reset to 0; otherwise
`rdata_size -= rdata_pos`, `memmove(rdata, rdata + rdata_pos, rdata_size)`
moves the unconsumed bytes to the front (bytes past the moved region keep
their old values), and `rdata_pos` resets to 0. -/
def RFIFOFLUSH (st : RBuf) : RBuf :=
  if st.rdata_size = st.rdata_pos then
    { st with rdata_size := 0, rdata_pos := 0 }
  else
    let n := sizeTSub st.rdata_size st.rdata_pos
    { rdata := (st.rdata.drop st.rdata_pos).take n ++ st.rdata.drop n
      rdata_size := n
      rdata_pos := 0 }

/- ───────────────────────── outbound FIFO macros (session.h) ── -/

/-- The outbound cursors of `struct socket_data`: write cursor `wdata_size`
and capacity `max_wdata`. -/
structure WBuf where
  wdata_size : Nat
  max_wdata : Nat
deriving DecidableEq

/-- `WFIFOHEAD` (session.h lines 66-70):
`if ((fd) && wdata_size + size > max_wdata) realloc_fifo(fd, size);`.
`realloc_fifo` lives in session.c (not part of this tree) and is taken as a
parameter; `fd` is truthy exactly when non-zero. -/
def WFIFOHEAD (realloc_fifo : WBuf → Nat → WBuf) (fd : Nat) (size : Nat)
    (st : WBuf) : WBuf :=
  if fd ≠ 0 ∧ st.wdata_size + size > st.max_wdata then realloc_fifo st size
  else st

/- ───────────────────────── header write (session.c, not in tree) ── -/

/-- Modelled from the spec: `WFIFOHEADER` (declared in session.h line 100,
defined in session.c which is not part of this tree) writes the 5-byte
packet header — byte 0 the `0xAA` marker, bytes 1-2 the payload length
stored as `SWAP16(len)` in the little-endian 16-bit field, byte 3 the
opcode, byte 4 the connection's increment counter — and then increments the
counter, an `unsigned char`, so it wraps modulo 256. -/
def WFIFOHEADER (opcode len inc : Nat) : List Nat × Nat :=
  ([0xAA, swap16 len % 256, swap16 len / 256, opcode % 256, inc % 256],
   (inc + 1) % 256)

/-- The increment counter left after a sequence of header writes, each given
by an (opcode, length) pair. -/
def headerWrites (ws : List (Nat × Nat)) (inc : Nat) : Nat :=
  ws.foldl (fun c w => (WFIFOHEADER w.1 w.2 c).2) inc

/- ───────────────────────── reactor tick loop (core.c) ── -/

/-- The three phases of one reactor tick, in the order core.c lines 54-67
calls them: `timer_do(tick)`, then `do_sendrecv()`, then
`do_parsepacket()`. -/
inductive Phase
  | timerDo
  | sendrecv
  | parsepacket
deriving DecidableEq

/-- The events of one iteration of the main loop (core.c lines 54-67): the
events emitted by `timer_do(tick)`, then those of `do_sendrecv()`, then
those of `do_parsepacket()`.  The bodies of the three phase functions live
in timer.c / session.c (not part of this tree), so the events each phase
emits are parameters; the loop only fixes their order. -/
def tickTrace (timerEvs ioEvs parseEvs : List α) : List (Phase × α) :=
  timerEvs.map (fun e => (Phase.timerDo, e)) ++
    (ioEvs.map (fun e => (Phase.sendrecv, e)) ++
      parseEvs.map (fun e => (Phase.parsepacket, e)))

/- ───────────────────────── signals and shutdown (core.c) ── -/

/-- Observable events of core.c's main loop and signal handler. -/
inductive CoreEv
  | tickPhase (p : Phase)
  | shutdownCheck
  | sleep
  | rustSignal (sig : Int)
  | timerClear
  | sessionEof (fd : Nat)
  | rustCleanup
  | exitProc (code : Int)
deriving DecidableEq

def SIGINT : Int := 2

def SIGTERM : Int := 15

/-- `handle_signal` (core.c lines 75-94): delegate to `rust_handle_signal`
(which records the shutdown request); then, for `SIGINT`/`SIGTERM` only,
clear the timers, call `session_eof(i)` on every live handle
`i < fd_max`, clean up and `exit(0)`.  `live i` models `session[i] != NULL`. -/
def handle_signal (fd_max : Nat) (live : Nat → Bool) (sig : Int) :
    List CoreEv :=
  CoreEv.rustSignal sig ::
    (if sig = SIGINT ∨ sig = SIGTERM then
      CoreEv.timerClear ::
        (((List.range fd_max).filter live).map CoreEv.sessionEof ++
          [CoreEv.rustCleanup, CoreEv.exitProc 0])
    else [])

/-- A main-loop iteration interrupted by a delivered signal after `p` of its
three phases have run.  Signals are asynchronous, and `exit(0)` inside the
handler ends the process, so the remaining phases of that tick never run. -/
def interruptedTick (p : Nat) (fd_max : Nat) (live : Nat → Bool)
    (sig : Int) : List CoreEv :=
  ([Phase.timerDo, Phase.sendrecv, Phase.parsepacket].take p).map
      CoreEv.tickPhase ++
    handle_signal fd_max live sig

/-- core.c lines 54-72: when `rust_should_shutdown()` returns true, the
check sits after all three phases of the tick, so the loop finishes the
tick, sleeps, leaves the loop, runs `rust_core_cleanup()` and returns 0. -/
def shutdownRequestedTick : List CoreEv :=
  [CoreEv.tickPhase Phase.timerDo, CoreEv.tickPhase Phase.sendrecv,
   CoreEv.tickPhase Phase.parsepacket, CoreEv.shutdownCheck, CoreEv.sleep,
   CoreEv.rustCleanup, CoreEv.exitProc 0]

end Yuri

namespace Yuri

/- ───────────────────────── arithmetic helper lemmas ── -/

theorem swap16_lt (x : Nat) : swap16 x < 65536 := Nat.mod_lt _ (by norm_num)

theorem swap16_eq (x : Nat) (hx : x < 65536) :
    swap16 x = x % 256 * 256 + x / 256 := by
  have hb : x / 256 < 2 ^ 8 := by omega
  unfold swap16
  rw [Nat.shiftLeft_eq, Nat.shiftRight_eq_div_pow]
  have h : x * 2 ^ 8 ||| x / 2 ^ 8 = 2 ^ 8 * x + x / 2 ^ 8 := by
    rw [Nat.mul_comm x (2 ^ 8)]
    exact (Nat.mul_add_lt_is_or hb x).symm
  norm_num at h ⊢
  omega

theorem swap16_swap16 (x : Nat) (hx : x < 65536) : swap16 (swap16 x) = x := by
  have h1 : swap16 x = x % 256 * 256 + x / 256 := swap16_eq x hx
  have h2 : swap16 (swap16 x) = swap16 x % 256 * 256 + swap16 x / 256 :=
    swap16_eq _ (swap16_lt x)
  omega

theorem sizeTSub_eq_sub (a b : Nat) (ha : a < 2 ^ 64) (hb : b ≤ a) :
    sizeTSub a b = a - b := by
  unfold sizeTSub
  omega

theorem int16_of_lt (x : Nat) (hx : x < 32768) : int16 x = x := by
  unfold int16
  rw [if_pos (show x % 65536 < 32768 by omega)]
  omega

theorem headerWrites_eq (ws : List (Nat × Nat)) (c : Nat) (hc : c < 256) :
    headerWrites ws c = (c + ws.length) % 256 := by
  induction ws generalizing c with
  | nil => simpa [headerWrites] using (Nat.mod_eq_of_lt hc).symm
  | cons w ws ih =>
    have h := ih ((c + 1) % 256) (Nat.mod_lt _ (by norm_num))
    simp only [headerWrites, List.foldl_cons] at h ⊢
    rw [show (WFIFOHEADER w.1 w.2 c).2 = (c + 1) % 256 from rfl, h]
    simp only [List.length_cons]
    omega

theorem tickTrace_phase_regions {α : Type} (te ie pe : List α) (i : Nat)
    (p : Phase) (x : α)
    (h : (tickTrace te ie pe)[i]? = some (p, x)) :
    (p = Phase.timerDo → i < te.length) ∧
      (p = Phase.sendrecv → te.length ≤ i ∧ i < te.length + ie.length) ∧
      (p = Phase.parsepacket → te.length + ie.length ≤ i) := by
  unfold tickTrace at h
  by_cases h1 : i < te.length
  · rw [List.getElem?_append_left (by simpa using h1), List.getElem?_map] at h
    cases hte : te[i]? with
    | none => rw [hte] at h; simp at h
    | some a =>
      rw [hte] at h
      have hp : Phase.timerDo = p := congrArg Prod.fst (Option.some.inj h)
      exact ⟨fun _ => h1, fun hq => absurd (hp.trans hq) (by decide),
        fun hq => absurd (hp.trans hq) (by decide)⟩
  · have h1' : te.length ≤ i := Nat.le_of_not_lt h1
    rw [List.getElem?_append_right (by simpa using h1')] at h
    simp only [List.length_map] at h
    by_cases h2 : i - te.length < ie.length
    · rw [List.getElem?_append_left (by simpa using h2),
        List.getElem?_map] at h
      cases hie : ie[i - te.length]? with
      | none => rw [hie] at h; simp at h
      | some a =>
        rw [hie] at h
        have hp : Phase.sendrecv = p := congrArg Prod.fst (Option.some.inj h)
        exact ⟨fun hq => absurd (hp.trans hq) (by decide),
          fun _ => ⟨h1', by omega⟩,
          fun hq => absurd (hp.trans hq) (by decide)⟩
    · have h2' : ie.length ≤ i - te.length := Nat.le_of_not_lt h2
      rw [List.getElem?_append_right (by simpa using h2'),
        List.getElem?_map] at h
      simp only [List.length_map] at h
      cases hpe : pe[i - te.length - ie.length]? with
      | none => rw [hpe] at h; simp at h
      | some a =>
        rw [hpe] at h
        have hp : Phase.parsepacket = p :=
          congrArg Prod.fst (Option.some.inj h)
        exact ⟨fun hq => absurd (hp.trans hq) (by decide),
          fun hq => absurd (hp.trans hq) (by decide), fun _ => by omega⟩

/- ───────────────────────── claim theorems ── -/

/-- C4: for every opcode byte and every payload length `L` representable in
16 bits, writing the packet header — `SWAP16 L` stored into the 16-bit field
at bytes 1-2 and the opcode into byte 3 — and then decoding it — reading the
16-bit field and applying `SWAP16` — recovers exactly the opcode and `L`. -/
theorem header_roundtrip (op L inc : Nat) (hop : op < 256) (hL : L < 65536) :
    decodeLen (WFIFOHEADER op L inc).1 = L ∧
      decodeOpcode (WFIFOHEADER op L inc).1 = op := by
  constructor
  · have hs := swap16_lt L
    simp only [decodeLen, readU16, WFIFOHEADER, List.getD_cons_succ,
      List.getD_cons_zero]
    have h : swap16 L % 256 + 256 * (swap16 L / 256) = swap16 L := by omega
    rw [h]
    exact swap16_swap16 L hL
  · simp only [decodeOpcode, WFIFOHEADER, List.getD_cons_succ,
      List.getD_cons_zero]
    omega

/-- Witness for C4 at opcode 3, length 0x1234, increment 7. -/
theorem header_roundtrip_witness :
    decodeLen (WFIFOHEADER 3 4660 7).1 = 4660 ∧
      decodeOpcode (WFIFOHEADER 3 4660 7).1 = 3 :=
  header_roundtrip 3 4660 7 (by decide) (by decide)

/-- C8: each header write stores the connection's increment counter into
header byte 4 and then increments it, wrapping modulo 256 (the counter is an
`unsigned char`); consequently a sequence of `k` header writes starting from
counter value `c` leaves the counter at `(c + k) % 256`. -/
theorem increment_counter (op len c : Nat) (ws : List (Nat × Nat))
    (hc : c < 256) :
    (WFIFOHEADER op len c).1.getD 4 0 = c ∧
      (WFIFOHEADER op len c).2 = (c + 1) % 256 ∧
      headerWrites ws c = (c + ws.length) % 256 := by
  refine ⟨?_, rfl, headerWrites_eq ws c hc⟩
  simp only [WFIFOHEADER, List.getD_cons_succ, List.getD_cons_zero]
  omega

/-- Witness for C8 at counter 255 and a two-write sequence. -/
theorem increment_counter_witness :
    (WFIFOHEADER 1 2 255).1.getD 4 0 = 255 ∧
      (WFIFOHEADER 1 2 255).2 = 0 ∧
      headerWrites [(1, 2), (3, 4)] 255 = 1 := by
  simpa using increment_counter 1 2 255 [(1, 2), (3, 4)] (by decide)

/-- C2 (divergence): the specified `skip` must fail on `n` greater than the
unconsumed count and leave the read cursor unchanged, but `RFIFOSKIP`'s
guard compares the `size_t` expression
`rdata_size - rdata_pos - len` against 0 in unsigned arithmetic, which never
holds, so skipping 7 bytes of a buffer holding 2 unconsumed bytes succeeds
and pushes the read cursor to 10, past the write cursor 5. -/
theorem rfifoskip_guard_dead :
    RFIFOSKIP ⟨[10, 11, 12, 13, 14], 5, 3⟩ 7 =
      some ⟨[10, 11, 12, 13, 14], 5, 10⟩ := by decide

/-- C9: `WFIFOHEAD` with handle 0 never grows the buffer — even when the
requested size overflows capacity the state (hence `max_wdata`) is left
unchanged — while every non-zero handle with the same overflow gets the
`realloc_fifo` call. -/
theorem wfifohead_skips_handle_zero (realloc_fifo : WBuf → Nat → WBuf)
    (size : Nat) (st : WBuf) (hover : st.wdata_size + size > st.max_wdata) :
    WFIFOHEAD realloc_fifo 0 size st = st ∧
      (WFIFOHEAD realloc_fifo 0 size st).max_wdata = st.max_wdata ∧
      ∀ fd : Nat, fd ≠ 0 →
        WFIFOHEAD realloc_fifo fd size st = realloc_fifo st size := by
  refine ⟨by simp [WFIFOHEAD], by simp [WFIFOHEAD], ?_⟩
  intro fd hfd
  simp [WFIFOHEAD, hfd, hover]

/-- C6: for a buffer satisfying `pos ≤ size ≤ capacity`, `RFIFOFLUSH` resets
the read cursor to 0, sets the write cursor to the old `size - pos`, keeps
`available()` and the capacity unchanged, moves the `size - pos` unconsumed
bytes to the front preserving order and values, resets both cursors to 0 on
full drain, and preserves the invariant `pos ≤ size ≤ capacity`. -/
theorem rfifoflush_spec (st : RBuf)
    (h1 : st.rdata_pos ≤ st.rdata_size)
    (h2 : st.rdata_size ≤ st.rdata.length)
    (h3 : st.rdata.length < 2 ^ 64) :
    (RFIFOFLUSH st).rdata_pos = 0 ∧
      (RFIFOFLUSH st).rdata_size = st.rdata_size - st.rdata_pos ∧
      (RFIFOFLUSH st).rdata_size - (RFIFOFLUSH st).rdata_pos
          = st.rdata_size - st.rdata_pos ∧
      (RFIFOFLUSH st).rdata.length = st.rdata.length ∧
      (∀ i, i < st.rdata_size - st.rdata_pos →
        (RFIFOFLUSH st).rdata.getD i 0 = st.rdata.getD (st.rdata_pos + i) 0) ∧
      (st.rdata_pos = st.rdata_size →
        (RFIFOFLUSH st).rdata_size = 0 ∧ (RFIFOFLUSH st).rdata_pos = 0) ∧
      (RFIFOFLUSH st).rdata_pos ≤ (RFIFOFLUSH st).rdata_size ∧
      (RFIFOFLUSH st).rdata_size ≤ (RFIFOFLUSH st).rdata.length := by
  by_cases hcase : st.rdata_size = st.rdata_pos
  · have e : RFIFOFLUSH st = { st with rdata_size := 0, rdata_pos := 0 } := by
      simp only [RFIFOFLUSH, if_pos hcase]
    rw [e]
    refine ⟨rfl, by show (0 : Nat) = st.rdata_size - st.rdata_pos; omega,
      by show (0 : Nat) - 0 = st.rdata_size - st.rdata_pos; omega, rfl, ?_,
      fun _ => ⟨rfl, rfl⟩, by show (0 : Nat) ≤ 0; omega,
      by show (0 : Nat) ≤ st.rdata.length; omega⟩
    intro i hi
    exact absurd hi (by omega)
  · have hn : sizeTSub st.rdata_size st.rdata_pos
        = st.rdata_size - st.rdata_pos := sizeTSub_eq_sub _ _ (by omega) h1
    have e : RFIFOFLUSH st =
        { rdata := (st.rdata.drop st.rdata_pos).take
              (st.rdata_size - st.rdata_pos) ++
            st.rdata.drop (st.rdata_size - st.rdata_pos)
          rdata_size := st.rdata_size - st.rdata_pos
          rdata_pos := 0 } := by
      simp only [RFIFOFLUSH, if_neg hcase, hn]
    rw [e]
    have hlen : ((st.rdata.drop st.rdata_pos).take
          (st.rdata_size - st.rdata_pos) ++
            st.rdata.drop (st.rdata_size - st.rdata_pos)).length
        = st.rdata.length := by
      simp only [List.length_append, List.length_take, List.length_drop]
      omega
    refine ⟨rfl, rfl,
      by show st.rdata_size - st.rdata_pos - 0 = st.rdata_size - st.rdata_pos
         omega,
      hlen, ?_, fun h => absurd h.symm hcase,
      by show (0 : Nat) ≤ st.rdata_size - st.rdata_pos; omega, ?_⟩
    · intro i hi
      rw [List.getD_eq_getElem?_getD, List.getD_eq_getElem?_getD]
      rw [List.getElem?_append_left
        (by simp only [List.length_take, List.length_drop]; omega)]
      rw [List.getElem?_take_of_lt hi, List.getElem?_drop]
    · show st.rdata_size - st.rdata_pos ≤ _
      rw [hlen]
      omega

/-- Witness for C6: 6-byte buffer, write cursor 5, read cursor 2. -/
theorem rfifoflush_spec_witness :
    (RFIFOFLUSH ⟨[10, 11, 12, 13, 14, 15], 5, 2⟩).rdata_pos = 0 ∧
      (RFIFOFLUSH ⟨[10, 11, 12, 13, 14, 15], 5, 2⟩).rdata_size = 3 ∧
      (RFIFOFLUSH ⟨[10, 11, 12, 13, 14, 15], 5, 2⟩).rdata.getD 0 0 = 12 ∧
      (RFIFOFLUSH ⟨[10, 11, 12, 13, 14, 15], 5, 2⟩).rdata.getD 1 0 = 13 ∧
      (RFIFOFLUSH ⟨[10, 11, 12, 13, 14, 15], 5, 2⟩).rdata.getD 2 0 = 14 := by
  have h := rfifoflush_spec ⟨[10, 11, 12, 13, 14, 15], 5, 2⟩ (by decide)
    (by decide) (by decide)
  exact ⟨h.1, h.2.1, by simpa using h.2.2.2.2.1 0 (by decide),
    by simpa using h.2.2.2.2.1 1 (by decide),
    by simpa using h.2.2.2.2.1 2 (by decide)⟩

/-- C10: when the connection's identity blob is absent or its outbound
buffer pointer is null, `encrypt` returns 1 and leaves the session — buffer
bytes and increment counter included — untouched. -/
theorem encrypt_null_guards (spi : List Nat → List Nat) (iks : Nat → Bool)
    (gk : List Nat → List Nat → Nat → List Nat)
    (dyn : List Nat → List Nat → List Nat) (sta : List Nat → List Nat)
    (ss : EncSession) (h : ss.session_data = none ∨ ss.wdata = none) :
    encrypt spi iks gk dyn sta ss = (1, ss) := by
  unfold encrypt
  rcases h with h | h
  · rw [h]
  · cases hsd : ss.session_data with
    | none => rfl
    | some sd => rw [h]

/-- Witness for C10: a session with no identity blob attached. -/
theorem encrypt_null_guards_witness :
    encrypt id (fun _ => true) (fun _ _ _ => []) (fun b _ => b) id
        ⟨none, some [1, 2, 3], 5⟩ = (1, ⟨none, some [1, 2, 3], 5⟩) :=
  encrypt_null_guards id (fun _ => true) (fun _ _ _ => []) (fun b _ => b) id
    ⟨none, some [1, 2, 3], 5⟩ (Or.inl rfl)

/-- C1: with the identity blob and buffer present, `encrypt` applies the
dynamic transform keyed by `generate_key2` on the identity hash table with
direction flag 0 exactly when `is_key_server` holds of the packet's byte 3,
and the static transform otherwise; `decrypt` applies the dynamic transform
with direction flag 1 exactly when `is_key_client` holds of the inbound
packet's byte 3, and the static transform otherwise.  The Rust crypto
primitives are universally quantified. -/
theorem crypt_key_selection
    (spi : List Nat → List Nat) (iks ikc : Nat → Bool)
    (gk : List Nat → List Nat → Nat → List Nat)
    (dyn : List Nat → List Nat → List Nat) (sta : List Nat → List Nat)
    (es : EncSession) (ds : DecSession) (sd sd' : USER) (buf : List Nat)
    (hes : es.session_data = some sd) (hbuf : es.wdata = some buf)
    (hds : ds.session_data = some sd') :
    (encrypt spi iks gk dyn sta es).2.wdata =
        some (if iks ((spi buf).getD 3 0) then
                dyn (spi buf) (gk (spi buf) sd.EncHash 0)
              else sta (spi buf)) ∧
      (decrypt ikc gk dyn sta ds).2.rdata =
        ds.rdata.take ds.rdata_pos ++
          (if ikc ((ds.rdata.drop ds.rdata_pos).getD 3 0) then
              dyn (ds.rdata.drop ds.rdata_pos)
                (gk (ds.rdata.drop ds.rdata_pos) sd'.EncHash 1)
            else sta (ds.rdata.drop ds.rdata_pos))
         := by
  constructor
  · unfold encrypt
    rw [hes, hbuf]
  · unfold decrypt
    rw [hds]

/-- Witness for C1: both paths at concrete primitives and sessions. -/
theorem crypt_key_selection_witness :
    (encrypt (fun b => b ++ [9]) (fun n => n == 2) (fun b h d =>
          [b.length, h.length, d]) (fun b k => b ++ k) (fun b => 0 :: b)
        ⟨some ⟨[5, 5]⟩, some [170, 0, 1, 2, 0], 0⟩).2.wdata =
        some [170, 0, 1, 2, 0, 9, 6, 2, 0] ∧
      (decrypt (fun n => n == 7) (fun b h d => [b.length, h.length, d])
          (fun b k => b ++ k) (fun b => 0 :: b)
        ⟨some ⟨[4]⟩, [1, 2, 170, 0, 1, 7, 0], 2⟩).2.rdata =
        [1, 2, 170, 0, 1, 7, 0, 5, 1, 1] := by
  have h := crypt_key_selection (fun b => b ++ [9]) (fun n => n == 2)
    (fun n => n == 7) (fun b h d => [b.length, h.length, d])
    (fun b k => b ++ k) (fun b => 0 :: b)
    ⟨some ⟨[5, 5]⟩, some [170, 0, 1, 2, 0], 0⟩
    ⟨some ⟨[4]⟩, [1, 2, 170, 0, 1, 7, 0], 2⟩
    ⟨[5, 5]⟩ ⟨[4]⟩ [170, 0, 1, 2, 0] rfl rfl rfl
  refine ⟨?_, ?_⟩
  · rw [h.1]; decide
  · rw [h.2]; decide

/-- C5 (counterexample): with identity primitives, the committed packet
`[0xAA, 0x80, 0x00, 0x05, 0x00]` holds `L = 32768` in its byte-swapped
16-bit length field, yet `encrypt` returns `-32765` rather than
`L + 3 = 32771`: the `(short)` cast inside `SWAP16` sign-extends lengths of
`0x8000` and above. -/
theorem encrypt_len_counterexample :
    decodeLen [170, 128, 0, 5, 0] = 32768 ∧
      (encrypt id (fun _ => false) (fun _ _ _ => []) (fun b _ => b) id
          ⟨some ⟨[]⟩, some [170, 128, 0, 5, 0], 0⟩).1 = -32765 ∧
      (-32765 : Int) ≠ 32768 + 3 := by decide

/-- C5 (amended): whenever the byte-swapped 16-bit length field of the
transformed outbound packet holds a value `L` below 32768, `encrypt` returns
exactly `L + 3` — the declared payload length plus the 3-byte
marker-and-length it excludes. -/
theorem encrypt_returns_len (spi : List Nat → List Nat) (iks : Nat → Bool)
    (gk : List Nat → List Nat → Nat → List Nat)
    (dyn : List Nat → List Nat → List Nat) (sta : List Nat → List Nat)
    (ss : EncSession) (sd : USER) (buf buf2 : List Nat)
    (hes : ss.session_data = some sd) (hbuf : ss.wdata = some buf)
    (hbuf2 : buf2 = (if iks ((spi buf).getD 3 0) then
        dyn (spi buf) (gk (spi buf) sd.EncHash 0)
      else sta (spi buf)))
    (hL : decodeLen buf2 < 32768) :
    (encrypt spi iks gk dyn sta ss).1 = (decodeLen buf2 : Int) + 3 := by
  have h1 : (encrypt spi iks gk dyn sta ss).1 = pktLen buf2 := by
    unfold encrypt
    rw [hes, hbuf, hbuf2]
  rw [h1]
  unfold pktLen
  unfold decodeLen at hL ⊢
  rw [int16_of_lt _ hL]

/-- Witness for C5's amended statement: a static-keyed packet whose field
decodes to 1024. -/
theorem encrypt_returns_len_witness :
    decodeLen [170, 4, 0, 5, 0] = 1024 ∧
      (encrypt id (fun _ => false) (fun _ _ _ => []) (fun b _ => b) id
          ⟨some ⟨[]⟩, some [170, 4, 0, 5, 0], 0⟩).1 = 1024 + 3 := by
  refine ⟨by decide, ?_⟩
  have h := encrypt_returns_len id (fun _ => false) (fun _ _ _ => [])
    (fun b _ => b) id ⟨some ⟨[]⟩, some [170, 4, 0, 5, 0], 0⟩ ⟨[]⟩
    [170, 4, 0, 5, 0] [170, 4, 0, 5, 0] rfl rfl (by decide) (by decide)
  rw [h]; decide

/-- Witness for C9: capacity 5, write cursor 4, request 3. -/
theorem wfifohead_skips_handle_zero_witness :
    WFIFOHEAD (fun st sz => ⟨st.wdata_size, st.wdata_size + sz⟩) 0 3 ⟨4, 5⟩ =
        ⟨4, 5⟩ ∧
      (WFIFOHEAD (fun st sz => ⟨st.wdata_size, st.wdata_size + sz⟩) 0 3
          ⟨4, 5⟩).max_wdata = 5 ∧
      WFIFOHEAD (fun st sz => ⟨st.wdata_size, st.wdata_size + sz⟩) 1 3 ⟨4, 5⟩ =
        ⟨4, 7⟩ := by
  have h := wfifohead_skips_handle_zero
    (fun st sz => ⟨st.wdata_size, st.wdata_size + sz⟩) 3 ⟨4, 5⟩ (by decide)
  exact ⟨h.1, h.2.1, h.2.2 1 (by decide)⟩

/-- C3: within any one iteration of the reactor tick loop, every timer event
precedes every socket I/O event, and every socket I/O event precedes every
parse event, whatever events the three phase calls emit. -/
theorem tick_ordering {α : Type} (te ie pe : List α) :
    (∀ (i j : Nat) (x y : α),
        (tickTrace te ie pe)[i]? = some (Phase.timerDo, x) →
        (tickTrace te ie pe)[j]? = some (Phase.sendrecv, y) → i < j) ∧
      (∀ (j k : Nat) (y z : α),
        (tickTrace te ie pe)[j]? = some (Phase.sendrecv, y) →
        (tickTrace te ie pe)[k]? = some (Phase.parsepacket, z) → j < k) := by
  constructor
  · intro i j x y hi hj
    have ri := (tickTrace_phase_regions te ie pe i _ x hi).1 rfl
    have rj := (tickTrace_phase_regions te ie pe j _ y hj).2.1 rfl
    omega
  · intro j k y z hj hk
    have rj := (tickTrace_phase_regions te ie pe j _ y hj).2.1 rfl
    have rk := (tickTrace_phase_regions te ie pe k _ z hk).2.2 rfl
    omega

/-- Witness for C3 on a tick with one timer, one I/O and one parse event. -/
theorem tick_ordering_witness :
    (tickTrace [10] [20] [30])[0]? = some (Phase.timerDo, 10) ∧
      (tickTrace [10] [20] [30])[1]? = some (Phase.sendrecv, 20) ∧
      (tickTrace [10] [20] [30])[2]? = some (Phase.parsepacket, 30) ∧
      (0 : Nat) < 1 ∧ (1 : Nat) < 2 :=
  ⟨by decide, by decide, by decide,
    (tick_ordering [10] [20] [30]).1 0 1 10 20 (by decide) (by decide),
    (tick_ordering [10] [20] [30]).2 1 2 20 30 (by decide) (by decide)⟩

/-- C7 (counterexample): one live connection, a `SIGINT` delivered after only
the timer phase of the tick has run: the handler ends the process — the exit
event is in the trace — while the tick's socket I/O and parse phases never
ran, so the claim that the reactor completes the current tick before exiting
fails on the signal path. -/
theorem shutdown_counterexample :
    CoreEv.exitProc 0 ∈ interruptedTick 1 1 (fun _ => true) SIGINT ∧
      CoreEv.tickPhase Phase.sendrecv ∉ interruptedTick 1 1 (fun _ => true)
        SIGINT ∧
      CoreEv.tickPhase Phase.parsepacket ∉ interruptedTick 1 1 (fun _ => true)
        SIGINT := by decide

/-- C7 (amended): on a recorded interrupt/terminate signal the handler
records the shutdown request, invokes the EOF path on every remaining live
connection, and only then exits — the exit is the last event, whatever point
of the tick the signal interrupts, so no socket is dropped without its EOF
path; the current tick, however, is not completed.  On an explicit shutdown
request the loop instead completes all three phases of the current tick
before exiting. -/
theorem shutdown_paths (p fd_max : Nat) (live : Nat → Bool) (sig : Int)
    (hsig : sig = SIGINT ∨ sig = SIGTERM) :
    (∃ pre, interruptedTick p fd_max live sig = pre ++ [CoreEv.exitProc 0] ∧
        CoreEv.rustSignal sig ∈ pre ∧
        ∀ fd, fd < fd_max → live fd = true → CoreEv.sessionEof fd ∈ pre) ∧
      (∃ pre, shutdownRequestedTick = pre ++ [CoreEv.exitProc 0] ∧
        CoreEv.tickPhase Phase.timerDo ∈ pre ∧
        CoreEv.tickPhase Phase.sendrecv ∈ pre ∧
        CoreEv.tickPhase Phase.parsepacket ∈ pre) := by
  constructor
  · refine ⟨([Phase.timerDo, Phase.sendrecv, Phase.parsepacket].take p).map
        CoreEv.tickPhase ++
        (CoreEv.rustSignal sig :: CoreEv.timerClear ::
          (((List.range fd_max).filter live).map CoreEv.sessionEof ++
            [CoreEv.rustCleanup])), ?_, ?_, ?_⟩
    · unfold interruptedTick handle_signal
      rw [if_pos hsig]
      simp
    · exact List.mem_append_right _ (List.mem_cons_self _ _)
    · intro fd hfd hlive
      have hm : CoreEv.sessionEof fd ∈
          ((List.range fd_max).filter live).map CoreEv.sessionEof :=
        List.mem_map_of_mem _
          (List.mem_filter.mpr ⟨List.mem_range.mpr hfd, hlive⟩)
      exact List.mem_append_right _ (List.mem_cons_of_mem _
        (List.mem_cons_of_mem _ (List.mem_append_left _ hm)))
  · exact ⟨[CoreEv.tickPhase Phase.timerDo, CoreEv.tickPhase Phase.sendrecv,
      CoreEv.tickPhase Phase.parsepacket, CoreEv.shutdownCheck, CoreEv.sleep,
      CoreEv.rustCleanup], by decide, by decide, by decide, by decide⟩

/-- Witness for C7's amended statement: two live connections, `SIGINT`
delivered after one phase; both get their EOF event before the exit, and the
explicit-request tick contains its timer phase. -/
theorem shutdown_paths_witness :
    CoreEv.sessionEof 0 ∈ interruptedTick 1 2 (fun _ => true) SIGINT ∧
      CoreEv.sessionEof 1 ∈ interruptedTick 1 2 (fun _ => true) SIGINT ∧
      CoreEv.tickPhase Phase.timerDo ∈ shutdownRequestedTick := by
  obtain ⟨h1, h2⟩ := shutdown_paths 1 2 (fun _ => true) SIGINT (Or.inl rfl)
  obtain ⟨pre, hEq, hsg, hAll⟩ := h1
  refine ⟨?_, ?_, ?_⟩
  · rw [hEq]
    exact List.mem_append_left _ (hAll 0 (by decide) rfl)
  · rw [hEq]
    exact List.mem_append_left _ (hAll 1 (by decide) rfl)
  · obtain ⟨pre2, hEq2, ht, _⟩ := h2
    rw [hEq2]
    exact List.mem_append_left _ ht

end Yuri
